import Mathlib

/-!
Verification of the lhasaRSS concurrent feed-ingestion pipeline.

This file gives a shallow embedding, in Lean 4, of the core of the
lhasaRSS Go program: the XML sanitizer (`removeInvalidXMLChars`), the
dedup comparison (`articleToKey` / `areArticlesIdentical`), the final
time sort of `main`, the retry controller (`fetchFeedWithRetry`), the
concurrent fetch pipeline (`fetchAllFeeds`) with its aggregation loop,
the published-time parsing (`parseTime`), and the avatar-resolution
fallback chain (`getFeedAvatarURL`, `fetchBlogLogo`, `fallbackFavicon`).

External effects (HTTP requests, the third-party feed parser, the Go
standard library's `time.Parse`, `url.Parse`, HTML traversal and date
formatting) are abstracted as oracle parameters; the repository's own
control flow and data manipulation are translated statement by
statement from the Go source.  Go byte slices are modelled as lists of
naturals below 256, `time.Time` instants as integers (`After` is `>`),
and Go maps keyed by strings as association lists built in insertion
order.
-/

namespace LhasaRSS

/-! ## Data model (model.go) -/

/-- The `Article` struct of model.go. -/
structure Article where
  blogName : String
  title : String
  published : String
  link : String
  avatar : String
deriving DecidableEq, Repr

/-- A throwaway article value, used to model Go nil-pointer dereference
sites that are unreachable in the actual control flow. -/
def dummyArticle : Article := ⟨"", "", "", "", ""⟩

/-- The `feedResult` struct of model.go: result of one fetch task.
`article` is a Go pointer (`nil` = `none`), `err` is the error text
(`nil` = `none`), `parsedTime` is the `time.Time` instant as an
integer (zero value `0`). -/
structure feedResult where
  article : Option Article
  feedLink : String
  err : Option String
  parsedTime : Int
deriving DecidableEq, Repr

/-! ## Sanitizer (feed_fetcher.go, removeInvalidXMLChars) -/

/-- `removeInvalidXMLChars` of feed_fetcher.go: keeps a byte iff it is
0x09, 0x0A, 0x0D or at least 0x20; all other bytes are dropped.  The
Go loop appends kept bytes to a fresh slice in input order, which is
the recursion below. -/
def removeInvalidXMLChars : List Nat → List Nat
  | [] => []
  | b :: rest =>
    if b = 0x09 ∨ b = 0x0A ∨ b = 0x0D ∨ 0x20 ≤ b then
      b :: removeInvalidXMLChars rest
    else
      removeInvalidXMLChars rest

/-- The byte predicate of the specification: a byte is removed exactly
when it is below 0x20 and none of tab, newline, carriage return. -/
def isRemovedByte (b : Nat) : Bool :=
  decide (b < 0x20) && !(b = 0x09 : Bool) && !(b = 0x0A : Bool) && !(b = 0x0D : Bool)

theorem removeInvalidXMLChars_eq_filter (l : List Nat) :
    removeInvalidXMLChars l = l.filter (fun b => !(isRemovedByte b)) := by
  induction l with
  | nil => rfl
  | cons b rest ih =>
    by_cases hb : b = 0x09 ∨ b = 0x0A ∨ b = 0x0D ∨ 0x20 ≤ b
    · have hkeep : (!(isRemovedByte b)) = true := by
        simp only [isRemovedByte]
        rcases hb with h | h | h | h
        · simp [h]
        · simp [h]
        · simp [h]
        · simp only [Bool.not_eq_true']
          simp
          omega
      simp [removeInvalidXMLChars, hb, List.filter_cons, hkeep, ih]
    · push_neg at hb
      obtain ⟨h9, hA, hD, hlt⟩ := hb
      have hdrop : (!(isRemovedByte b)) = false := by
        simp only [isRemovedByte]
        simp [h9, hA, hD]
        omega
      have hb2 : ¬ (b = 0x09 ∨ b = 0x0A ∨ b = 0x0D ∨ 0x20 ≤ b) := by
        push_neg
        exact ⟨h9, hA, hD, hlt⟩
      simp [removeInvalidXMLChars, hb2, List.filter_cons, hdrop, ih]

/-- C5: the sanitizer removes exactly the bytes below 0x20 other than
tab (0x09), newline (0x0A) and carriage return (0x0D), passes every
other byte through unchanged and in order (it equals a filter by that
predicate), is total (a Lean function, so it never errors), and is
idempotent. -/
theorem sanitizer_filter_and_idempotent (l : List Nat) :
    removeInvalidXMLChars l = l.filter (fun b => !(isRemovedByte b)) ∧
    removeInvalidXMLChars (removeInvalidXMLChars l) = removeInvalidXMLChars l := by
  refine ⟨removeInvalidXMLChars_eq_filter l, ?_⟩
  rw [removeInvalidXMLChars_eq_filter, removeInvalidXMLChars_eq_filter,
    List.filter_filter]
  simp

/-! ## Dedup comparison (main.go: articleToKey, areArticlesIdentical) -/

/-- `articleToKey` of main.go:
`fmt.Sprintf("Blog:%s|Title:%s|Link:%s", a.BlogName, a.Title, a.Link)`. -/
def articleToKey (a : Article) : String :=
  "Blog:" ++ a.blogName ++ "|Title:" ++ a.title ++ "|Link:" ++ a.link

/-- The `(blogName, title, link)` identity tuple named by the
specification as the dedup identity of an `Article`. -/
def identityTuple (a : Article) : String × String × String :=
  (a.blogName, a.title, a.link)

/-- One `map[key]++` update of a Go count map, modelled on an
association list: an existing entry is incremented in place, a missing
key is appended with count 1. -/
def bumpKey : List (String × Nat) → String → List (String × Nat)
  | [], k => [(k, 1)]
  | (k0, n) :: rest, k =>
    if k0 = k then (k0, n + 1) :: rest else (k0, n) :: bumpKey rest k

/-- Go map read `m[k]`: `some` count when the key is present. -/
def lookupCount : List (String × Nat) → String → Option Nat
  | [], _ => none
  | (k0, n) :: rest, k => if k0 = k then some n else lookupCount rest k

/-- The count map built by the `for _, article := range articles` loops
of `areArticlesIdentical`. -/
def buildCountMap (articles : List Article) : List (String × Nat) :=
  articles.foldl (fun m a => bumpKey m (articleToKey a)) []

/-- `areArticlesIdentical` of main.go: length check, two count maps
keyed by `articleToKey`, unique-key-count check, then entrywise count
comparison of map1 against map2. -/
def areArticlesIdentical (articles1 articles2 : List Article) : Bool :=
  if articles1.length ≠ articles2.length then false
  else
    let map1 := buildCountMap articles1
    let map2 := buildCountMap articles2
    if map1.length ≠ map2.length then false
    else map1.all (fun kv =>
      match lookupCount map2 kv.1 with
      | some c2 => kv.2 == c2
      | none => false)

/-- The `shouldUpdate` decision of the specification, implemented in
main.go as the negation of `areArticlesIdentical` guarding the early
return before persistence. -/
def shouldUpdate (newArticles existingArticles : List Article) : Bool :=
  !(areArticlesIdentical newArticles existingArticles)

theorem lookupCount_bumpKey (m : List (String × Nat)) (k k2 : String) :
    lookupCount (bumpKey m k) k2 =
      if k2 = k then some ((lookupCount m k).getD 0 + 1) else lookupCount m k2 := by
  induction m with
  | nil =>
    by_cases h : k2 = k
    · subst h
      simp [bumpKey, lookupCount]
    · have h2 : ¬ (k = k2) := fun hc => h hc.symm
      simp [bumpKey, lookupCount, h, h2]
  | cons kv rest ih =>
    obtain ⟨k0, n⟩ := kv
    by_cases h0 : k0 = k
    · subst h0
      by_cases h2 : k2 = k0
      · subst h2
        simp [bumpKey, lookupCount]
      · have h2s : ¬ (k0 = k2) := fun hc => h2 hc.symm
        simp [bumpKey, lookupCount, h2, h2s]
    · by_cases h2 : k0 = k2
      · subst h2
        simp [bumpKey, lookupCount, h0]
      · simp [bumpKey, lookupCount, h0, h2, ih]

theorem lookupCount_eq_none_iff (m : List (String × Nat)) (k : String) :
    lookupCount m k = none ↔ k ∉ m.map Prod.fst := by
  induction m with
  | nil => simp [lookupCount]
  | cons kv rest ih =>
    obtain ⟨k0, n⟩ := kv
    by_cases h : k0 = k
    · subst h
      simp [lookupCount]
    · have hne : ¬ (k = k0) := fun hc => h hc.symm
      simp [lookupCount, h, hne, ih]

theorem lookupCount_foldl_none (keys : List String) (m : List (String × Nat))
    (k : String) :
    lookupCount (keys.foldl bumpKey m) k = none ↔
      (lookupCount m k = none ∧ keys.count k = 0) := by
  induction keys generalizing m with
  | nil => simp
  | cons key rest ih =>
    rw [List.foldl_cons, ih, lookupCount_bumpKey]
    by_cases h : k = key
    · subst h
      simp [List.count_cons]
    · have hne : ¬ (key = k) := fun hc => h hc.symm
      simp [h, List.count_cons, hne]

theorem lookupCount_foldl_getD (keys : List String) (m : List (String × Nat))
    (k : String) :
    (lookupCount (keys.foldl bumpKey m) k).getD 0 =
      (lookupCount m k).getD 0 + keys.count k := by
  induction keys generalizing m with
  | nil => simp
  | cons key rest ih =>
    rw [List.foldl_cons, ih, lookupCount_bumpKey]
    by_cases h : k = key
    · subst h
      simp [List.count_cons]
      omega
    · have hne : ¬ (key = k) := fun hc => h hc.symm
      simp [h, List.count_cons, hne]

theorem lookupCount_keysFold (keys : List String) (k : String) :
    lookupCount (keys.foldl bumpKey []) k =
      if keys.count k = 0 then none else some (keys.count k) := by
  by_cases h : keys.count k = 0
  · simp [h, (lookupCount_foldl_none keys [] k).mpr ⟨rfl, h⟩]
  · have hnone : ¬ (lookupCount (keys.foldl bumpKey []) k = none) := by
      intro hc
      exact h ((lookupCount_foldl_none keys [] k).mp hc).2
    have hgetD := lookupCount_foldl_getD keys [] k
    cases hval : lookupCount (keys.foldl bumpKey []) k with
    | none => exact absurd hval hnone
    | some c =>
      rw [hval] at hgetD
      simp [lookupCount] at hgetD
      simp [h, hgetD]

theorem mapFst_bumpKey (m : List (String × Nat)) (k k2 : String) :
    k2 ∈ (bumpKey m k).map Prod.fst ↔ k2 ∈ m.map Prod.fst ∨ k2 = k := by
  induction m with
  | nil => simp [bumpKey]
  | cons kv rest ih =>
    obtain ⟨k0, n⟩ := kv
    by_cases h0 : k0 = k
    · subst h0
      simp [bumpKey]
      tauto
    · simp [bumpKey, h0, ih]
      tauto

theorem nodup_bumpKey (m : List (String × Nat)) (k : String)
    (h : (m.map Prod.fst).Nodup) : ((bumpKey m k).map Prod.fst).Nodup := by
  induction m with
  | nil => simp [bumpKey]
  | cons kv rest ih =>
    obtain ⟨k0, n⟩ := kv
    rw [List.map_cons, List.nodup_cons] at h
    by_cases h0 : k0 = k
    · subst h0
      have hb : bumpKey ((k0, n) :: rest) k0 = (k0, n + 1) :: rest := by
        simp [bumpKey]
      rw [hb, List.map_cons, List.nodup_cons]
      exact h
    · simp only [bumpKey, if_neg h0, List.map_cons, List.nodup_cons]
      refine ⟨?_, ih h.2⟩
      intro hmem
      rcases (mapFst_bumpKey rest k k0).mp hmem with hin | heq
      · exact h.1 hin
      · exact h0 heq

theorem nodup_keysFold (keys : List String) :
    ∀ m : List (String × Nat), (m.map Prod.fst).Nodup →
      ((keys.foldl bumpKey m).map Prod.fst).Nodup := by
  induction keys with
  | nil =>
    intro m h
    simpa using h
  | cons key rest ih =>
    intro m h
    rw [List.foldl_cons]
    exact ih _ (nodup_bumpKey m key h)

theorem lookupCount_eq_some_mem (m : List (String × Nat)) (k : String) (c : Nat)
    (h : lookupCount m k = some c) : (k, c) ∈ m := by
  induction m with
  | nil => simp [lookupCount] at h
  | cons kv rest ih =>
    obtain ⟨k0, n⟩ := kv
    by_cases h0 : k0 = k
    · subst h0
      rw [lookupCount, if_pos rfl] at h
      injection h with hnc
      subst hnc
      exact List.mem_cons_self _ _
    · rw [lookupCount, if_neg h0] at h
      exact List.mem_cons_of_mem _ (ih h)

theorem mem_lookupCount_of_nodup (m : List (String × Nat)) (k : String) (c : Nat)
    (hn : (m.map Prod.fst).Nodup) (h : (k, c) ∈ m) : lookupCount m k = some c := by
  induction m with
  | nil => simp at h
  | cons kv rest ih =>
    obtain ⟨k0, n⟩ := kv
    rw [List.map_cons, List.nodup_cons] at hn
    rcases List.mem_cons.mp h with heq | hmem
    · rw [Prod.mk.injEq] at heq
      obtain ⟨hk, hc⟩ := heq
      subst hk
      subst hc
      rw [lookupCount, if_pos rfl]
    · by_cases h0 : k0 = k
      · subst h0
        exact absurd (List.mem_map_of_mem Prod.fst hmem) hn.1
      · rw [lookupCount, if_neg h0]
        exact ih hn.2 hmem

theorem buildCountMap_eq_keysFold (l : List Article) :
    buildCountMap l = (l.map articleToKey).foldl bumpKey [] := by
  rw [buildCountMap, List.foldl_map]

theorem lookup_buildCountMap (l : List Article) (k : String) :
    lookupCount (buildCountMap l) k =
      if (l.map articleToKey).count k = 0 then none
      else some ((l.map articleToKey).count k) := by
  rw [buildCountMap_eq_keysFold]
  exact lookupCount_keysFold _ k

theorem mem_keys_buildCountMap (l : List Article) (k : String) :
    k ∈ (buildCountMap l).map Prod.fst ↔ (l.map articleToKey).count k ≠ 0 := by
  have h1 := lookupCount_eq_none_iff (buildCountMap l) k
  rw [lookup_buildCountMap] at h1
  by_cases hc : (l.map articleToKey).count k = 0
  · rw [if_pos hc] at h1
    simp only [hc]
    constructor
    · intro hk
      exact absurd hk (h1.mp rfl)
    · intro hne
      exact absurd rfl hne
  · rw [if_neg hc] at h1
    constructor
    · intro _
      exact hc
    · intro _
      by_contra hk
      exact Option.noConfusion (h1.mpr hk)

theorem nodup_keys_buildCountMap (l : List Article) :
    ((buildCountMap l).map Prod.fst).Nodup := by
  rw [buildCountMap_eq_keysFold]
  exact nodup_keysFold _ [] (by simp)

theorem areArticlesIdentical_char (l1 l2 : List Article) :
    areArticlesIdentical l1 l2 = true ↔
      l1.length = l2.length ∧
      (buildCountMap l1).length = (buildCountMap l2).length ∧
      ∀ kv ∈ buildCountMap l1,
        (match lookupCount (buildCountMap l2) kv.1 with
          | some c2 => kv.2 == c2
          | none => false) = true := by
  simp only [areArticlesIdentical]
  split_ifs with h1 h2
  · simp [h1]
  · simp [h2]
  · rw [not_not] at h1 h2
    simp [h1, h2, List.all_eq_true]

theorem areArticlesIdentical_iff_perm (l1 l2 : List Article) :
    areArticlesIdentical l1 l2 = true ↔
      (l1.map articleToKey).Perm (l2.map articleToKey) := by
  rw [areArticlesIdentical_char]
  constructor
  · rintro ⟨hlen, hmlen, hall⟩
    rw [List.perm_iff_count]
    intro k
    by_cases hc1 : (l1.map articleToKey).count k = 0
    · by_cases hc2 : (l2.map articleToKey).count k = 0
      · rw [hc1, hc2]
      · exfalso
        have hsub : ∀ x ∈ (buildCountMap l1).map Prod.fst,
            x ∈ (buildCountMap l2).map Prod.fst := by
          intro x hx
          have hcx := (mem_keys_buildCountMap l1 x).mp hx
          have hlx : lookupCount (buildCountMap l1) x =
              some ((l1.map articleToKey).count x) := by
            rw [lookup_buildCountMap, if_neg hcx]
          have hmemx := lookupCount_eq_some_mem _ _ _ hlx
          have hchk := hall _ hmemx
          rw [mem_keys_buildCountMap]
          intro hzero
          rw [lookup_buildCountMap l2 x, if_pos hzero] at hchk
          simp at hchk
        have hn1 := nodup_keys_buildCountMap l1
        have hn2 := nodup_keys_buildCountMap l2
        have hfin : ((buildCountMap l1).map Prod.fst).toFinset =
            ((buildCountMap l2).map Prod.fst).toFinset := by
          apply Finset.eq_of_subset_of_card_le
          · intro x hx
            rw [List.mem_toFinset] at hx ⊢
            exact hsub x hx
          · rw [List.toFinset_card_of_nodup hn1, List.toFinset_card_of_nodup hn2,
              List.length_map, List.length_map, hmlen]
        have hk2 : k ∈ (buildCountMap l2).map Prod.fst :=
          (mem_keys_buildCountMap l2 k).mpr hc2
        have hk1 : k ∈ (buildCountMap l1).map Prod.fst := by
          rw [← List.mem_toFinset, hfin, List.mem_toFinset]
          exact hk2
        exact (mem_keys_buildCountMap l1 k).mp hk1 hc1
    · have hl1 : lookupCount (buildCountMap l1) k =
          some ((l1.map articleToKey).count k) := by
        rw [lookup_buildCountMap, if_neg hc1]
      have hmem := lookupCount_eq_some_mem _ _ _ hl1
      have hchk := hall _ hmem
      by_cases hc2 : (l2.map articleToKey).count k = 0
      · rw [lookup_buildCountMap l2 k, if_pos hc2] at hchk
        simp at hchk
      · rw [lookup_buildCountMap l2 k, if_neg hc2] at hchk
        simpa using hchk
  · intro hperm
    have hcnt : ∀ k, (l1.map articleToKey).count k = (l2.map articleToKey).count k :=
      fun k => hperm.count_eq k
    have hn1 := nodup_keys_buildCountMap l1
    have hn2 := nodup_keys_buildCountMap l2
    refine ⟨?_, ?_, ?_⟩
    · have := hperm.length_eq
      simpa using this
    · have hfin : ((buildCountMap l1).map Prod.fst).toFinset =
          ((buildCountMap l2).map Prod.fst).toFinset := by
        ext x
        rw [List.mem_toFinset, List.mem_toFinset, mem_keys_buildCountMap,
          mem_keys_buildCountMap, hcnt x]
      have hclen := congrArg Finset.card hfin
      rw [List.toFinset_card_of_nodup hn1, List.toFinset_card_of_nodup hn2,
        List.length_map, List.length_map] at hclen
      exact hclen
    · intro kv hkv
      have hl1 : lookupCount (buildCountMap l1) kv.1 = some kv.2 := by
        have : (kv.1, kv.2) ∈ buildCountMap l1 := by
          rw [Prod.mk.eta]
          exact hkv
        exact mem_lookupCount_of_nodup _ _ _ hn1 this
      rw [lookup_buildCountMap] at hl1
      by_cases hc : (l1.map articleToKey).count kv.1 = 0
      · rw [if_pos hc] at hl1
        exact Option.noConfusion hl1
      · rw [if_neg hc] at hl1
        injection hl1 with h12
        have hc2 : (l2.map articleToKey).count kv.1 ≠ 0 := by
          rw [← hcnt]
          exact hc
        rw [lookup_buildCountMap l2 kv.1, if_neg hc2, ← hcnt kv.1, h12]
        simp

/-- First counterexample article: its blogName embeds the literal
separator text of `articleToKey`. -/
def artA : Article := ⟨"a|Title:b", "c", "", "d", ""⟩

/-- Second counterexample article: a different identity tuple whose
formatted key collides with the one of `artA`. -/
def artB : Article := ⟨"a", "b|Title:c", "", "d", ""⟩

/-- C1 counterexample: `areArticlesIdentical` compares the formatted
string keys of `articleToKey`, and those keys are not injective in the
`(blogName, title, link)` tuple: `artA` and `artB` have different
identity tuples yet the same key `"Blog:a|Title:b|Title:c|Link:d"`, so
`shouldUpdate` reports the two singleton collections equal although
their multisets of identity tuples differ.  This refutes the claim
that equality is reported exactly on equal multisets of identity
tuples. -/
theorem shouldUpdate_tuple_identity_cex :
    shouldUpdate [artA] [artB] = false ∧
    ¬ ([artA].map identityTuple).Perm ([artB].map identityTuple) := by
  decide

/-- C1 (amended): `shouldUpdate`, the negation of
`areArticlesIdentical`, reports two collections equal exactly when
they contain the same multiset of formatted `articleToKey` strings
(rather than of raw `(blogName, title, link)` tuples): it is
order-independent in both arguments, multiplicity-aware over keys,
reports every collection equal to itself, and duplicating one element
in one collection but not the other makes it report unequal. -/
theorem shouldUpdate_key_multiset_props :
    (∀ l1 l2 : List Article, shouldUpdate l1 l2 = false ↔
        (l1.map articleToKey).Perm (l2.map articleToKey)) ∧
    (∀ l : List Article, shouldUpdate l l = false) ∧
    (∀ l1 l1x l2 : List Article, l1.Perm l1x →
        shouldUpdate l1 l2 = shouldUpdate l1x l2) ∧
    (∀ l1 l2 l2x : List Article, l2.Perm l2x →
        shouldUpdate l1 l2 = shouldUpdate l1 l2x) ∧
    (∀ (a : Article) (l1 l2 : List Article), a ∈ l1 →
        shouldUpdate l1 l2 = false → shouldUpdate (a :: l1) l2 = true) := by
  have main : ∀ l1 l2 : List Article, shouldUpdate l1 l2 = false ↔
      (l1.map articleToKey).Perm (l2.map articleToKey) := by
    intro l1 l2
    rw [← areArticlesIdentical_iff_perm]
    simp [shouldUpdate]
  have hsym : ∀ b1 b2 : Bool, (b1 = false ↔ b2 = false) → b1 = b2 := by
    intro b1 b2 h
    cases b1 <;> cases b2 <;> simp_all
  refine ⟨main, ?_, ?_, ?_, ?_⟩
  · intro l
    exact (main l l).mpr (List.Perm.refl _)
  · intro l1 l1x l2 hp
    apply hsym
    rw [main, main]
    constructor
    · intro h
      exact ((hp.map articleToKey).symm).trans h
    · intro h
      exact (hp.map articleToKey).trans h
  · intro l1 l2 l2x hp
    apply hsym
    rw [main, main]
    constructor
    · intro h
      exact h.trans (hp.map articleToKey)
    · intro h
      exact h.trans ((hp.map articleToKey).symm)
  · intro a l1 l2 _ hfalse
    have hperm := (main l1 l2).mp hfalse
    cases hb : shouldUpdate (a :: l1) l2 with
    | false =>
      exfalso
      have h2 := (main (a :: l1) l2).mp hb
      have hlen1 := hperm.length_eq
      have hlen2 := h2.length_eq
      simp only [List.length_map, List.length_cons] at hlen1 hlen2
      omega
    | true => rfl

/-- Concrete instantiation of `shouldUpdate_key_multiset_props`:
reflexivity at a one-element collection, and inequality after
duplicating its element. -/
theorem shouldUpdate_key_multiset_props_witness :
    shouldUpdate [artA] [artA] = false ∧
    shouldUpdate [artA, artA] [artA] = true := by
  refine ⟨shouldUpdate_key_multiset_props.2.1 [artA], ?_⟩
  exact shouldUpdate_key_multiset_props.2.2.2.2 artA [artA] [artA]
    (by simp) (by decide)

/-! ## Final sort (main.go: sort.Slice on itemsWithTime) -/

/-- Go `time.Time` instants are modelled as integers; `t.After(u)` is
the strict comparison `u < t`. -/
def timeAfter (t u : Int) : Bool := decide (u < t)

/-- One element of the `itemsWithTime` slice of main.go: a
dereferenced successful article together with its parsed time. -/
structure TimedArticle where
  article : Article
  t : Int
deriving DecidableEq, Repr

/-- The comparison closure passed to `sort.Slice` in main.go:
`itemsWithTime[i].t.After(itemsWithTime[j].t)`. -/
def sortSliceLess (x y : TimedArticle) : Bool := timeAfter x.t y.t

/-- Modelled from the documented contract of Go's `sort.Slice`: the
output is some permutation of the input in which no later element is
`sortSliceLess` than an earlier one.  `sort.Slice` documents that the
sort is NOT guaranteed to be stable, so the contract is a relation
admitting every sorted permutation. -/
def isSortSliceOutput (input output : List TimedArticle) : Prop :=
  output.Perm input ∧ output.Pairwise (fun x y => sortSliceLess y x = false)

/-- The success-extraction loop of main.go feeding `itemsWithTime`:
keep results with nil error, pairing the dereferenced article with its
`parsedTime`, in arrival order. -/
def successItems (results : List feedResult) : List TimedArticle :=
  results.filterMap (fun r =>
    match r.err with
    | none => some ⟨r.article.getD dummyArticle, r.parsedTime⟩
    | some _ => none)

theorem sorted_perm_strict_eq :
    ∀ l1 l2 : List TimedArticle,
      l1.Pairwise (fun x y => y.t < x.t) →
      l2.Pairwise (fun x y => y.t ≤ x.t) →
      l2.Perm l1 → l2 = l1 := by
  intro l1
  induction l1 with
  | nil =>
    intro l2 _ _ hp
    exact hp.eq_nil
  | cons a rest ih =>
    intro l2 hs1 hs2 hp
    cases l2 with
    | nil => exact List.noConfusion hp.symm.eq_nil
    | cons b l2t =>
      by_cases hab : b = a
      · subst hab
        have hp2 : l2t.Perm rest := hp.cons_inv
        rw [ih l2t hs1.of_cons hs2.of_cons hp2]
      · exfalso
        have hbmem : b ∈ a :: rest := hp.subset (List.mem_cons_self b l2t)
        have hbrest : b ∈ rest := by
          rcases List.mem_cons.mp hbmem with h | h
          · exact absurd h hab
          · exact h
        have hba : b.t < a.t := (List.pairwise_cons.mp hs1).1 b hbrest
        have hamem : a ∈ b :: l2t := hp.symm.subset (List.mem_cons_self a rest)
        have hal2t : a ∈ l2t := by
          rcases List.mem_cons.mp hamem with h | h
          · exact absurd h.symm hab
          · exact h
        have hab2 : a.t ≤ b.t := (List.pairwise_cons.mp hs2).1 a hal2t
        omega

/-- C2 counterexample: on the two-element input whose articles share
one `parsedTime`, the `sort.Slice` contract admits the tie-reversed
output, so equal-time articles need not keep their original relative
order, and an already-sorted collection need not be returned
unchanged: the code's sort is not the claimed stable sort. -/
theorem sortSlice_not_stable_cex :
    isSortSliceOutput [⟨artA, 0⟩, ⟨artB, 0⟩] [⟨artB, 0⟩, ⟨artA, 0⟩] ∧
    (⟨artA, 0⟩ : TimedArticle).t = (⟨artB, 0⟩ : TimedArticle).t ∧
    [(⟨artB, 0⟩ : TimedArticle), ⟨artA, 0⟩] ≠ [⟨artA, 0⟩, ⟨artB, 0⟩] ∧
    isSortSliceOutput [⟨artA, 0⟩, ⟨artB, 0⟩] [⟨artA, 0⟩, ⟨artB, 0⟩] := by
  refine ⟨⟨?_, ?_⟩, rfl, ?_, ?_, ?_⟩
  · exact List.Perm.swap _ _ _
  · decide
  · decide
  · exact List.Perm.refl _
  · decide

/-- C2 (amended): every output admitted by the `sort.Slice` call of
main.go is a permutation of the collected `itemsWithTime` ordered by
parsedTime in descending (non-ascending) order, newest first; and when
the input is already strictly sorted (all parsedTime values distinct),
the sorted output is exactly the input.  Stability of ties is not
guaranteed. -/
theorem sortSlice_descending_perm_unique (input output : List TimedArticle)
    (h : isSortSliceOutput input output) :
    output.Perm input ∧
    output.Pairwise (fun x y => y.t ≤ x.t) ∧
    (input.Pairwise (fun x y => y.t < x.t) → output = input) := by
  obtain ⟨hperm, hsorted⟩ := h
  have hs2 : output.Pairwise (fun x y => y.t ≤ x.t) := by
    refine hsorted.imp ?_
    intro x y hxy
    simp [sortSliceLess, timeAfter] at hxy
    omega
  refine ⟨hperm, hs2, ?_⟩
  intro hstrict
  exact sorted_perm_strict_eq input output hstrict hs2 hperm

/-- Concrete instantiation of `sortSlice_descending_perm_unique` at a
strictly descending two-element input. -/
theorem sortSlice_descending_perm_unique_witness :
    ([(⟨artA, 2⟩ : TimedArticle), ⟨artB, 1⟩]).Perm [⟨artA, 2⟩, ⟨artB, 1⟩] ∧
    ([(⟨artA, 2⟩ : TimedArticle), ⟨artB, 1⟩]).Pairwise (fun x y => y.t ≤ x.t) ∧
    (([(⟨artA, 2⟩ : TimedArticle), ⟨artB, 1⟩]).Pairwise (fun x y => y.t < x.t) →
      [(⟨artA, 2⟩ : TimedArticle), ⟨artB, 1⟩] = [⟨artA, 2⟩, ⟨artB, 1⟩]) :=
  sortSlice_descending_perm_unique [⟨artA, 2⟩, ⟨artB, 1⟩] [⟨artA, 2⟩, ⟨artB, 1⟩]
    ⟨List.Perm.refl _, by decide⟩

/-! ## Retry controller (feed_fetcher.go: fetchFeedWithRetry) -/

/-- The two fetch paths of the retry loop: `fetchFeed` (plain) and
`fetchFeedWithFix` (custom user agent, TLS verification skipped). -/
inductive FetchPath
  | plain
  | withFix
deriving DecidableEq, Repr

/-- Observable outcome of a `fetchFeedWithRetry` run: the returned Go
pair `(feed, err)` (either may be nil), the path used by each executed
attempt in order, and the backoff waits performed in order. -/
structure RetryOutcome (E F : Type) where
  feed : Option F
  err : Option E
  paths : List FetchPath
  waits : List ℚ

/-- The path the loop uses at 0-based attempt index `i`: the plain
`fetchFeed` for `i = 0`, the hardened `fetchFeedWithFix` afterwards. -/
def pathOf (i : Nat) : FetchPath :=
  if i = 0 then .plain else .withFix

/-- Outcome of the 0-based attempt `i`, given the behaviour `plainO`
of `fetchFeed` and the behaviour `fixO` of `fetchFeedWithFix` at each
attempt index. -/
def goAttempt {E F : Type} (plainO : Except E F) (fixO : Nat → Except E F)
    (i : Nat) : Except E F :=
  if i = 0 then plainO else fixO i

/-- The backoff wait after failed attempt `i` (0-based):
`time.Duration(float64(baseWait) * math.Pow(backoffMultiple, float64(i)))`,
modelled as the exact rational `base * mult ^ i`. -/
def waitTime (base mult : ℚ) (i : Nat) : ℚ := base * mult ^ i

/-- The retry loop of `fetchFeedWithRetry`, from attempt index `i`
with `fuel` attempts remaining and the last recorded error: success
returns the feed at once; failure on the last attempt returns the
error; otherwise one backoff wait is performed and the loop
continues. -/
def retryAux {E F : Type} (plainO : Except E F) (fixO : Nat → Except E F)
    (base mult : ℚ) : Nat → Nat → Option E → RetryOutcome E F
  | _, 0, lastErr => ⟨none, lastErr, [], []⟩
  | i, fuel + 1, _ =>
    match goAttempt plainO fixO i with
    | .ok f => ⟨some f, none, [pathOf i], []⟩
    | .error e =>
      if fuel = 0 then ⟨none, some e, [pathOf i], []⟩
      else
        let rest := retryAux plainO fixO base mult (i + 1) fuel (some e)
        ⟨rest.feed, rest.err, pathOf i :: rest.paths,
          waitTime base mult i :: rest.waits⟩

/-- `fetchFeedWithRetry` of feed_fetcher.go over abstracted attempt
outcomes: up to `maxRetries` attempts starting at index 0 with no
recorded error. -/
def fetchFeedWithRetry {E F : Type} (plainO : Except E F)
    (fixO : Nat → Except E F) (maxRetries : Nat) (base mult : ℚ) :
    RetryOutcome E F :=
  retryAux plainO fixO base mult 0 maxRetries none

theorem map_range_shift {α : Type} (g : Nat → α) (i m : Nat) :
    g i :: (List.range m).map (fun j => g (i + 1 + j)) =
      (List.range (m + 1)).map (fun j => g (i + j)) := by
  rw [List.range_succ_eq_map, List.map_cons, List.map_map]
  refine congrArg₂ _ (congrArg g (by omega)) ?_
  refine congrArg (fun f => List.map f (List.range m)) ?_
  funext j
  simp only [Function.comp_apply]
  exact congrArg g (by omega)

theorem retryAux_error_cont {E F : Type} (plainO : Except E F)
    (fixO : Nat → Except E F) (base mult : ℚ) (i fuel : Nat)
    (lastErr : Option E) (e : E)
    (he : goAttempt plainO fixO i = .error e) (hfu : fuel ≠ 0) :
    retryAux plainO fixO base mult i (fuel + 1) lastErr =
      ⟨(retryAux plainO fixO base mult (i + 1) fuel (some e)).feed,
        (retryAux plainO fixO base mult (i + 1) fuel (some e)).err,
        pathOf i :: (retryAux plainO fixO base mult (i + 1) fuel (some e)).paths,
        waitTime base mult i ::
          (retryAux plainO fixO base mult (i + 1) fuel (some e)).waits⟩ := by
  simp only [retryAux, he, if_neg hfu]

theorem retryAux_success {E F : Type} (plainO : Except E F)
    (fixO : Nat → Except E F) (base mult : ℚ) :
    ∀ (k i fuel : Nat) (lastErr : Option E) (f : F),
      k < fuel →
      (∀ j, j < k → ∃ e, goAttempt plainO fixO (i + j) = .error e) →
      goAttempt plainO fixO (i + k) = .ok f →
      retryAux plainO fixO base mult i fuel lastErr =
        ⟨some f, none, (List.range (k + 1)).map (fun j => pathOf (i + j)),
          (List.range k).map (fun j => waitTime base mult (i + j))⟩ := by
  intro k
  induction k with
  | zero =>
    intro i fuel lastErr f hk _ hok
    obtain ⟨fu, rfl⟩ : ∃ fu, fuel = fu + 1 := ⟨fuel - 1, by omega⟩
    rw [Nat.add_zero] at hok
    simp [retryAux, hok, List.range_succ]
  | succ k ih =>
    intro i fuel lastErr f hk hfail hok
    obtain ⟨fu, rfl⟩ : ∃ fu, fuel = fu + 1 := ⟨fuel - 1, by omega⟩
    obtain ⟨e0, he0⟩ := hfail 0 (by omega)
    rw [Nat.add_zero] at he0
    have hfu : ¬ (fu = 0) := by omega
    have hrest := ih (i + 1) fu (some e0) f (by omega)
      (fun j hj => by
        obtain ⟨e, he⟩ := hfail (j + 1) (by omega)
        exact ⟨e, by rw [show i + 1 + j = i + (j + 1) from by omega]; exact he⟩)
      (by rw [show i + 1 + k = i + (k + 1) from by omega]; exact hok)
    simp only [retryAux, he0, if_neg hfu, hrest]
    rw [RetryOutcome.mk.injEq]
    exact ⟨rfl, rfl, map_range_shift pathOf i (k + 1),
      map_range_shift (waitTime base mult) i k⟩

theorem retryAux_allfail {E F : Type} (plainO : Except E F)
    (fixO : Nat → Except E F) (base mult : ℚ) (errOf : Nat → E) :
    ∀ (n i : Nat) (lastErr : Option E),
      1 ≤ n →
      (∀ j, j < n → goAttempt plainO fixO (i + j) = .error (errOf (i + j))) →
      retryAux plainO fixO base mult i n lastErr =
        ⟨none, some (errOf (i + n - 1)),
          (List.range n).map (fun j => pathOf (i + j)),
          (List.range (n - 1)).map (fun j => waitTime base mult (i + j))⟩ := by
  intro n
  induction n with
  | zero => omega
  | succ n ih =>
    intro i lastErr _ hfail
    have he0 := hfail 0 (by omega)
    rw [Nat.add_zero] at he0
    by_cases hn : n = 0
    · subst hn
      simp [retryAux, he0, List.range_succ]
    · obtain ⟨m, rfl⟩ : ∃ m, n = m + 1 := ⟨n - 1, by omega⟩
      have hrest := ih (i + 1) (some (errOf i)) (by omega)
        (fun j hj => by
          rw [show i + 1 + j = i + (j + 1) from by omega]
          exact hfail (j + 1) (by omega))
      rw [retryAux_error_cont plainO fixO base mult i (m + 1) lastErr
        (errOf i) he0 hn, hrest]
      dsimp only
      rw [RetryOutcome.mk.injEq]
      refine ⟨rfl, congrArg _ (congrArg _ (by omega)), ?_, ?_⟩
      · exact map_range_shift pathOf i (m + 1)
      · simp only [Nat.add_sub_cancel]
        exact map_range_shift (waitTime base mult) i m

/-- C3: for every pair of fetch behaviours and every maxRetries N with
1 ≤ N: if the first k < N attempts fail and attempt k succeeds,
`fetchFeedWithRetry` returns the success with no error and performs
exactly k backoff waits of duration baseWait * backoffMultiple^(i-1)
for 1-based attempt index i (0-based: base * mult ^ i); if every
attempt fails, exactly N attempts occur and the returned error is that
of the last attempt; and the executed attempt paths are the plain
`fetchFeed` first, then the hardened `fetchFeedWithFix` on attempts
2..N. -/
theorem fetchFeedWithRetry_retry_contract :
    (∀ (E F : Type) (plainO : Except E F) (fixO : Nat → Except E F)
        (N k : Nat) (base mult : ℚ) (f : F),
      k < N →
      (∀ i, i < k → ∃ e, goAttempt plainO fixO i = .error e) →
      goAttempt plainO fixO k = .ok f →
      fetchFeedWithRetry plainO fixO N base mult =
        ⟨some f, none, (List.range (k + 1)).map pathOf,
          (List.range k).map (waitTime base mult)⟩) ∧
    (∀ (E F : Type) (plainO : Except E F) (fixO : Nat → Except E F)
        (N : Nat) (base mult : ℚ) (errOf : Nat → E),
      1 ≤ N →
      (∀ i, i < N → goAttempt plainO fixO i = .error (errOf i)) →
      fetchFeedWithRetry plainO fixO N base mult =
        ⟨none, some (errOf (N - 1)), (List.range N).map pathOf,
          (List.range (N - 1)).map (waitTime base mult)⟩) ∧
    (∀ N, 1 ≤ N →
      (List.range N).map pathOf =
        FetchPath.plain :: List.replicate (N - 1) FetchPath.withFix) := by
  refine ⟨?_, ?_, ?_⟩
  · intro E F plainO fixO N k base mult f hk hfail hok
    have h := retryAux_success plainO fixO base mult k 0 N none f hk
      (fun j hj => by
        rw [Nat.zero_add]
        exact hfail j hj)
      (by rw [Nat.zero_add]; exact hok)
    rw [fetchFeedWithRetry, h]
    rw [RetryOutcome.mk.injEq]
    refine ⟨rfl, rfl, ?_, ?_⟩
    · refine congrArg (fun g => List.map g (List.range (k + 1))) ?_
      funext j
      rw [Nat.zero_add]
    · refine congrArg (fun g => List.map g (List.range k)) ?_
      funext j
      rw [Nat.zero_add]
  · intro E F plainO fixO N base mult errOf hN hfail
    have h := retryAux_allfail plainO fixO base mult errOf N 0 none hN
      (fun j hj => by
        rw [Nat.zero_add]
        exact hfail j hj)
    rw [fetchFeedWithRetry, h]
    rw [RetryOutcome.mk.injEq]
    refine ⟨rfl, congrArg _ (congrArg _ (by omega)), ?_, ?_⟩
    · refine congrArg (fun g => List.map g (List.range N)) ?_
      funext j
      rw [Nat.zero_add]
    · refine congrArg (fun g => List.map g (List.range (N - 1))) ?_
      funext j
      rw [Nat.zero_add]
  · intro N hN
    obtain ⟨m, rfl⟩ : ∃ m, N = m + 1 := ⟨N - 1, by omega⟩
    rw [List.range_succ_eq_map, List.map_cons, List.map_map, Nat.add_sub_cancel]
    refine congrArg₂ _ rfl ?_
    have hfun : (pathOf ∘ Nat.succ) = fun (j : Nat) => FetchPath.withFix := by
      funext j
      simp [pathOf]
    rw [hfun, List.map_const', List.length_range]

/-- Concrete instantiation of `fetchFeedWithRetry_retry_contract`: one
failure then a success under maxRetries 3, and two failures exhausting
maxRetries 2, with base wait 1 and multiplier 2. -/
theorem fetchFeedWithRetry_retry_contract_witness :
    @fetchFeedWithRetry Nat Nat (.error 0)
        (fun i => if i = 1 then .ok 7 else .error i) 3 1 2 =
      ⟨some 7, none, (List.range 2).map pathOf,
        (List.range 1).map (waitTime 1 2)⟩ ∧
    @fetchFeedWithRetry Nat Nat (.error 0) (fun i => .error i) 2 1 2 =
      ⟨none, some 1, (List.range 2).map pathOf,
        (List.range 1).map (waitTime 1 2)⟩ := by
  constructor
  · exact fetchFeedWithRetry_retry_contract.1 Nat Nat (.error 0)
      (fun i => if i = 1 then .ok 7 else .error i) 3 1 1 2 7 (by omega)
      (fun i hi => by
        interval_cases i
        exact ⟨0, rfl⟩)
      rfl
  · exact fetchFeedWithRetry_retry_contract.2.1 Nat Nat (.error 0)
      (fun i => .error i) 2 1 2 (fun i => i) (by omega)
      (fun i hi => by
        interval_cases i <;> rfl)

/-! ## Feed model and avatar resolution (feed_parser.go) -/

/-- The gofeed `Image` sub-structure: only its URL field is read. -/
structure GoImage where
  url : String
deriving DecidableEq, Repr

/-- One gofeed item: exactly the fields read by `fetchAllFeeds`. -/
structure GoFeedItem where
  title : String
  link : String
  published : String
  publishedParsed : Option Int
deriving DecidableEq, Repr

/-- A parsed gofeed feed: exactly the fields read by the pipeline. -/
structure GoFeed where
  title : String
  link : String
  image : Option GoImage
  items : List GoFeedItem
deriving DecidableEq, Repr

/-- A parsed net/url URL: the two fields `fallbackFavicon` reads. -/
structure GoURL where
  scheme : String
  host : String
deriving DecidableEq, Repr

/-- `fallbackFavicon` of feed_parser.go over an oracle for `url.Parse`
(`none` models a parse error): empty string on a parse error or a
missing scheme or host, otherwise `scheme://host/favicon.ico`. -/
def fallbackFavicon (urlParse : String → Option GoURL) (blogURL : String) :
    String :=
  match urlParse blogURL with
  | none => ""
  | some u =>
    if u.scheme = "" ∨ u.host = "" then ""
    else u.scheme ++ "://" ++ u.host ++ "/favicon.ico"

/-- Result of fetching and scanning a blog homepage, abstracting the
HTTP GET and the HTML traversal of `fetchBlogLogo`: `fetchFail` covers
a transport error, a non-200 status, or an html.Parse error; `page`
carries the first link-rel-icon href and the last og:image content
found, either possibly empty when absent. -/
inductive HomepageResult
  | fetchFail
  | page (iconHref ogImage : String)
deriving DecidableEq, Repr

/-- `fetchBlogLogo` of feed_parser.go: the head icon when present,
else the og:image, else the favicon fallback; a fetch or parse failure
also falls back.  `resolveRef` abstracts `makeAbsoluteURL`. -/
def fetchBlogLogo (homepage : String → HomepageResult)
    (urlParse : String → Option GoURL)
    (resolveRef : String → String → String) (blogURL : String) : String :=
  match homepage blogURL with
  | .fetchFail => fallbackFavicon urlParse blogURL
  | .page iconHref ogImage =>
    if iconHref ≠ "" then resolveRef blogURL iconHref
    else if ogImage ≠ "" then resolveRef blogURL ogImage
    else fallbackFavicon urlParse blogURL

/-- `getFeedAvatarURL` of feed_parser.go over an abstract
homepage-logo fetcher: the embedded feed image wins when present and
non-empty; else the homepage logo when a feed link exists; else the
empty string. -/
def getFeedAvatarURL (blogLogo : String → String) (feed : GoFeed) : String :=
  match feed.image with
  | some img =>
    if img.url ≠ "" then img.url
    else if feed.link ≠ "" then blogLogo feed.link
    else ""
  | none =>
    if feed.link ≠ "" then blogLogo feed.link
    else ""

/-! ## Published-time parsing (feed_parser.go: parseTime) -/

/-- Layout `time.RFC1123Z`. -/
def rfc1123z : String := "Mon, 02 Jan 2006 15:04:05 -0700"

/-- Layout `time.RFC1123`. -/
def rfc1123 : String := "Mon, 02 Jan 2006 15:04:05 MST"

/-- Layout `time.RFC3339`. -/
def rfc3339 : String := "2006-01-02T15:04:05Z07:00"

/-- The RFC 3339 with milliseconds layout of parseTime. -/
def rfc3339milli : String := "2006-01-02T15:04:05.000Z07:00"

/-- The fifth layout of parseTime, RFC 1123 with a literal +0000
zone.  Under Go's `time.Parse` every string this layout accepts is
also accepted by `rfc1123z` with the same result, so it is redundant
in the ordered list. -/
def plusZeroLayout : String := "Mon, 02 Jan 2006 15:04:05 +0000"

/-- The ordered layout list of parseTime in feed_parser.go. -/
def goTimeFormats : List String :=
  [rfc1123z, rfc1123, rfc3339, rfc3339milli, plusZeroLayout]

/-- The format loop of parseTime: the first layout the `time.Parse`
oracle accepts wins. -/
def tryFormats (timeParse : String → String → Option Int) (timeStr : String) :
    List String → Option Int
  | [] => none
  | f :: rest =>
    match timeParse f timeStr with
    | some t => some t
    | none => tryFormats timeParse timeStr rest

/-- `parseTime` of feed_parser.go over an oracle for `time.Parse`
(layout and input to instant): tries the layouts in order, failing
only when every layout fails. -/
def parseTime (timeParse : String → String → Option Int) (timeStr : String) :
    Except String Int :=
  match tryFormats timeParse timeStr goTimeFormats with
  | some t => .ok t
  | none => .error ("cannot parse time: " ++ timeStr)

/-! ## The fetch task and the aggregation loop (feed_fetcher.go) -/

/-- Oracles for the effectful steps of a fetch task: the outcome of
`fetchFeedWithRetry` per link (`ok none` models a nil feed), the
homepage-logo resolution, the avatar liveness check
(`checkURLAvailable`, whose error the code discards), the `time.Parse`
oracle, the date formatter, and the current wall-clock instant. -/
structure TaskEnv where
  fetchO : String → Except String (Option GoFeed)
  blogLogo : String → String
  checkURL : String → Bool
  timeParse : String → String → Option Int
  fmtDate : Int → String
  now : Int

/-- `wrapErrorf` of wrap_error.go on the non-nil path: the formatted
message with the cause appended (the caller file and line prefix is
irrelevant to the substring classification and abstracted away). -/
def wrapErrorf (err msg : String) : String := msg ++ " | 原因: " ++ err

/-- A throwaway item value for the Go indexing `feed.Items[0]`, which
the control flow only reaches after the non-empty check. -/
def dummyItem : GoFeedItem := ⟨"", "", "", none⟩

/-- The goroutine body of `fetchAllFeeds` for one already trimmed,
non-blank link: retry fetch, nil/empty check, avatar resolution with
liveness check, newest-item extraction, published-time fallback. -/
def fetchTask (env : TaskEnv) (rssLink : String) : feedResult :=
  match env.fetchO rssLink with
  | .error e =>
    { article := none, feedLink := rssLink,
      err := some (wrapErrorf e ("解析RSS失败: " ++ rssLink)), parsedTime := 0 }
  | .ok ofeed =>
    match ofeed with
    | none =>
      { article := none, feedLink := rssLink,
        err := some (wrapErrorf "该订阅没有内容" ("RSS为空: " ++ rssLink)),
        parsedTime := 0 }
    | some feed =>
      if feed.items.isEmpty then
        { article := none, feedLink := rssLink,
          err := some (wrapErrorf "该订阅没有内容" ("RSS为空: " ++ rssLink)),
          parsedTime := 0 }
      else
        let avatarURL := getFeedAvatarURL env.blogLogo feed
        let avatar :=
          if avatarURL = "" then ""
          else if env.checkURL avatarURL then avatarURL else "BROKEN"
        let latest := feed.items.headD dummyItem
        let pubTime :=
          match latest.publishedParsed with
          | some t => t
          | none =>
            if latest.published ≠ "" then
              match parseTime env.timeParse latest.published with
              | .ok t => t
              | .error _ => env.now
            else env.now
        { article := some
            { blogName := feed.title, title := latest.title,
              published := env.fmtDate pubTime, link := latest.link,
              avatar := avatar },
          feedLink := rssLink, err := none, parsedTime := pubTime }

/-- `strings.Contains`, on the underlying character lists. -/
def strContains (s pat : String) : Bool := decide (pat.data <:+: s.data)

/-- The four problem buckets of `fetchAllFeeds`. -/
structure Problems where
  parseFails : List String
  feedEmpties : List String
  noAvatar : List String
  brokenAvatar : List String
deriving DecidableEq, Repr

/-- The initial empty problem tally. -/
def emptyProblems : Problems := ⟨[], [], [], []⟩

/-- The error-classification switch of the collection loop, matching
on substrings of the formatted error text. -/
def classifyError (p : Problems) (link errStr : String) : Problems :=
  if strContains errStr "解析RSS失败" then
    { p with parseFails := p.parseFails ++ [link] }
  else if strContains errStr "RSS为空" then
    { p with feedEmpties := p.feedEmpties ++ [link] }
  else p

/-- One iteration of the `for r := range resultChan` collection loop:
an error result is tallied by substring and appended as-is; a success
with an empty avatar gets the default avatar and a noAvatar tally, a
BROKEN avatar gets the default avatar and a brokenAvatar tally. -/
def aggregateStep (defaultAvatar : String) (acc : List feedResult × Problems)
    (r : feedResult) : List feedResult × Problems :=
  match r.err with
  | some e => (acc.1 ++ [r], classifyError acc.2 r.feedLink e)
  | none =>
    let a := r.article.getD dummyArticle
    if a.avatar = "" then
      (acc.1 ++ [{ r with article := some { a with avatar := defaultAvatar } }],
        { acc.2 with noAvatar := acc.2.noAvatar ++ [r.feedLink] })
    else if a.avatar = "BROKEN" then
      (acc.1 ++ [{ r with article := some { a with avatar := defaultAvatar } }],
        { acc.2 with brokenAvatar := acc.2.brokenAvatar ++ [r.feedLink] })
    else (acc.1 ++ [r], acc.2)

/-- The collection loop over all received results. -/
def aggregate (defaultAvatar : String) (rs : List feedResult) :
    List feedResult × Problems :=
  rs.foldl (aggregateStep defaultAvatar) ([], emptyProblems)

/-- The trimmed, non-blank links the dispatch loop launches one task
for (`strings.TrimSpace`, skip empty). -/
def launchedLinks (rssLinks : List String) : List String :=
  (rssLinks.map (fun l => l.trim)).filter (fun l => l ≠ "")

/-- The per-task results as collected from the result channel.
Arrival order is scheduler-dependent; it is modelled as launch order,
and the properties proved below are order-insensitive. -/
def taskResults (env : TaskEnv) (rssLinks : List String) : List feedResult :=
  (launchedLinks rssLinks).map (fetchTask env)

/-- `fetchAllFeeds` of feed_fetcher.go: one task per non-blank link,
then the single-threaded collection loop. -/
def fetchAllFeeds (env : TaskEnv) (rssLinks : List String)
    (defaultAvatar : String) : List feedResult × Problems :=
  aggregate defaultAvatar (taskResults env rssLinks)

theorem fetchTask_feedLink (env : TaskEnv) (l : String) :
    (fetchTask env l).feedLink = l := by
  rw [fetchTask]
  cases env.fetchO l with
  | error e => rfl
  | ok ofeed =>
    cases ofeed with
    | none => rfl
    | some feed =>
      dsimp only
      by_cases h : feed.items.isEmpty
      · rw [if_pos h]
      · rw [if_neg h]

theorem aggregateStep_fst_feedLinks (d : String)
    (acc : List feedResult × Problems) (r : feedResult) :
    (aggregateStep d acc r).1.map (fun x => x.feedLink) =
      acc.1.map (fun x => x.feedLink) ++ [r.feedLink] := by
  rw [aggregateStep]
  cases r.err with
  | some e => simp
  | none =>
    by_cases h1 : (r.article.getD dummyArticle).avatar = ""
    · simp [h1]
    · by_cases h2 : (r.article.getD dummyArticle).avatar = "BROKEN"
      · simp [h1, h2]
      · simp [h1, h2]

theorem aggregate_fold_feedLinks (d : String) (rs : List feedResult) :
    ∀ acc : List feedResult × Problems,
      (rs.foldl (aggregateStep d) acc).1.map (fun r => r.feedLink) =
        acc.1.map (fun r => r.feedLink) ++ rs.map (fun r => r.feedLink) := by
  induction rs with
  | nil =>
    intro acc
    simp
  | cons r rest ih =>
    intro acc
    rw [List.foldl_cons, ih, aggregateStep_fst_feedLinks, List.map_cons,
      List.append_assoc, List.singleton_append]

/-- C4: `fetchAllFeeds` returns exactly one `feedResult` per non-blank
input URL: the returned results' source links are, in order, exactly
the trimmed non-blank input links, so each source yields at most one
result and no non-blank source is dropped. -/
theorem fetchAllFeeds_one_result_per_link (env : TaskEnv)
    (rssLinks : List String) (d : String) :
    (fetchAllFeeds env rssLinks d).1.map (fun r => r.feedLink) =
      launchedLinks rssLinks := by
  rw [fetchAllFeeds, aggregate, aggregate_fold_feedLinks, taskResults]
  rw [List.map_map]
  have hcongr : ∀ l ∈ launchedLinks rssLinks,
      ((fun r => feedResult.feedLink r) ∘ fetchTask env) l = id l := by
    intro l _
    exact fetchTask_feedLink env l
  rw [List.map_congr_left hcongr, List.map_id]
  simp

/-- The avatar the task resolved for a result, read the way the
collection loop reads it (through the Go pointer dereference). -/
def avatarOf (r : feedResult) : String := (r.article.getD dummyArticle).avatar

/-- The element the collection loop appends for one received result:
an error result unchanged; a success with an empty or BROKEN avatar
with the default avatar substituted; any other success unchanged. -/
def stepResult (d : String) (r : feedResult) : feedResult :=
  match r.err with
  | some _ => r
  | none =>
    let a := r.article.getD dummyArticle
    if a.avatar = "" ∨ a.avatar = "BROKEN" then
      { r with article := some { a with avatar := d } }
    else r

theorem stepResult_err (d : String) (r : feedResult) :
    (stepResult d r).err = r.err := by
  rw [stepResult]
  cases herr : r.err with
  | some e => exact herr
  | none =>
    dsimp only
    split_ifs with h
    · rfl
    · exact herr

theorem stepResult_success_avatar (d : String) (hd : d ≠ "")
    (r : feedResult) (hr : r.err = none) :
    ∃ a, (stepResult d r).article = some a ∧ a.avatar ≠ "" := by
  rw [stepResult, hr]
  dsimp only
  by_cases h : (r.article.getD dummyArticle).avatar = "" ∨
      (r.article.getD dummyArticle).avatar = "BROKEN"
  · rw [if_pos h]
    exact ⟨_, rfl, hd⟩
  · rw [if_neg h]
    push_neg at h
    cases harta : r.article with
    | none =>
      exfalso
      apply h.1
      rw [harta]
      rfl
    | some a =>
      refine ⟨a, rfl, ?_⟩
      intro hav
      apply h.1
      rw [harta, Option.getD_some, hav]

theorem stepResult_substitutes (d : String) (r : feedResult)
    (hr : r.err = none)
    (h : avatarOf r = "" ∨ avatarOf r = "BROKEN") :
    (stepResult d r).article =
      some { r.article.getD dummyArticle with avatar := d } := by
  simp only [avatarOf] at h
  rw [stepResult, hr]
  dsimp only
  rw [if_pos h]

theorem aggregateStep_char (d : String) (acc : List feedResult × Problems)
    (r : feedResult) :
    (aggregateStep d acc r).1 = acc.1 ++ [stepResult d r] ∧
    (aggregateStep d acc r).2.noAvatar =
      acc.2.noAvatar ++
        (if r.err.isNone && (avatarOf r == "") then [r.feedLink] else []) ∧
    (aggregateStep d acc r).2.brokenAvatar =
      acc.2.brokenAvatar ++
        (if r.err.isNone && (avatarOf r == "BROKEN") then [r.feedLink] else []) := by
  rw [aggregateStep, stepResult]
  cases herr : r.err with
  | some e =>
    dsimp only
    refine ⟨rfl, ?_, ?_⟩
    · rw [classifyError]
      split_ifs <;> simp_all
    · rw [classifyError]
      split_ifs <;> simp_all
  | none =>
    dsimp only
    by_cases h1 : (r.article.getD dummyArticle).avatar = ""
    · rw [if_pos h1, if_pos (Or.inl h1)]
      refine ⟨rfl, ?_, ?_⟩
      · simp [avatarOf, h1]
      · have hb : ¬ ((r.article.getD dummyArticle).avatar == "BROKEN") = true := by
          simp [h1]
        simp [avatarOf, hb]
    · rw [if_neg h1]
      by_cases h2 : (r.article.getD dummyArticle).avatar = "BROKEN"
      · rw [if_pos h2, if_pos (Or.inr h2)]
        refine ⟨rfl, ?_, ?_⟩
        · simp [avatarOf, h1]
        · simp [avatarOf, h2]
      · rw [if_neg h2, if_neg (by tauto : ¬ ((r.article.getD dummyArticle).avatar = "" ∨ (r.article.getD dummyArticle).avatar = "BROKEN"))]
        refine ⟨rfl, ?_, ?_⟩
        · simp [avatarOf, h1]
        · simp [avatarOf, h2]

theorem aggregate_fold_char (d : String) (rs : List feedResult) :
    ∀ acc : List feedResult × Problems,
      (rs.foldl (aggregateStep d) acc).1 = acc.1 ++ rs.map (stepResult d) ∧
      (rs.foldl (aggregateStep d) acc).2.noAvatar =
        acc.2.noAvatar ++
          (rs.filter (fun r => r.err.isNone && (avatarOf r == ""))).map
            (fun r => r.feedLink) ∧
      (rs.foldl (aggregateStep d) acc).2.brokenAvatar =
        acc.2.brokenAvatar ++
          (rs.filter (fun r => r.err.isNone && (avatarOf r == "BROKEN"))).map
            (fun r => r.feedLink) := by
  induction rs with
  | nil =>
    intro acc
    simp
  | cons r rest ih =>
    intro acc
    rw [List.foldl_cons]
    obtain ⟨ih1, ih2, ih3⟩ := ih (aggregateStep d acc r)
    obtain ⟨s1, s2, s3⟩ := aggregateStep_char d acc r
    refine ⟨?_, ?_, ?_⟩
    · rw [ih1, s1, List.map_cons, List.append_assoc, List.singleton_append]
    · rw [ih2, s2, List.filter_cons]
      by_cases hp : (r.err.isNone && (avatarOf r == "")) = true
      · rw [if_pos hp, if_pos hp, List.map_cons, List.append_assoc,
          List.singleton_append]
      · rw [if_neg hp, if_neg hp, List.append_nil]
    · rw [ih3, s3, List.filter_cons]
      by_cases hp : (r.err.isNone && (avatarOf r == "BROKEN")) = true
      · rw [if_pos hp, if_pos hp, List.map_cons, List.append_assoc,
          List.singleton_append]
      · rw [if_neg hp, if_neg hp, List.append_nil]

/-- C8: with a non-empty configured default avatar, every Article in a
successful result of the final output has a non-empty avatar URL; the
collection loop maps each received result through exactly one
substitution step which replaces an empty or liveness-failed (BROKEN)
avatar by the configured default, while recording the source URL under
the noAvatar or brokenAvatar problem category respectively. -/
theorem fetchAllFeeds_avatar_invariant (env : TaskEnv)
    (rssLinks : List String) (d : String) (hd : d ≠ "") :
    (∀ r ∈ (fetchAllFeeds env rssLinks d).1, r.err = none →
      ∃ a, r.article = some a ∧ a.avatar ≠ "") ∧
    (fetchAllFeeds env rssLinks d).1 =
      (taskResults env rssLinks).map (stepResult d) ∧
    (∀ r : feedResult, r.err = none →
      avatarOf r = "" ∨ avatarOf r = "BROKEN" →
      (stepResult d r).article =
        some { r.article.getD dummyArticle with avatar := d }) ∧
    (fetchAllFeeds env rssLinks d).2.noAvatar =
      ((taskResults env rssLinks).filter
        (fun r => r.err.isNone && (avatarOf r == ""))).map
          (fun r => r.feedLink) ∧
    (fetchAllFeeds env rssLinks d).2.brokenAvatar =
      ((taskResults env rssLinks).filter
        (fun r => r.err.isNone && (avatarOf r == "BROKEN"))).map
          (fun r => r.feedLink) := by
  obtain ⟨h1, h2, h3⟩ :=
    aggregate_fold_char d (taskResults env rssLinks) ([], emptyProblems)
  refine ⟨?_, ?_, ?_, ?_, ?_⟩
  · intro r hmem hrerr
    rw [fetchAllFeeds, aggregate, h1, List.nil_append] at hmem
    obtain ⟨r0, _, rfl⟩ := List.mem_map.mp hmem
    have hr0 : r0.err = none := by
      rw [← stepResult_err d r0]
      exact hrerr
    exact stepResult_success_avatar d hd r0 hr0
  · rw [fetchAllFeeds, aggregate, h1, List.nil_append]
  · intro r h hav
    exact stepResult_substitutes d r h hav
  · rw [fetchAllFeeds, aggregate, h2]
    rw [show emptyProblems.noAvatar = [] from rfl, List.nil_append]
  · rw [fetchAllFeeds, aggregate, h3]
    rw [show emptyProblems.brokenAvatar = [] from rfl, List.nil_append]

/-- A minimal oracle environment for concrete instantiations: the
fetch of every link fails. -/
def envW : TaskEnv :=
  { fetchO := fun _ => .error "boom",
    blogLogo := fun _ => "",
    checkURL := fun _ => false,
    timeParse := fun _ _ => none,
    fmtDate := fun _ => "",
    now := 0 }

/-- Concrete instantiation of `fetchAllFeeds_avatar_invariant` at one
link with default avatar "D". -/
theorem fetchAllFeeds_avatar_invariant_witness :
    (fetchAllFeeds envW ["u"] "D").2.noAvatar =
      ((taskResults envW ["u"]).filter
        (fun r => r.err.isNone && (avatarOf r == ""))).map
          (fun r => r.feedLink) :=
  (fetchAllFeeds_avatar_invariant envW ["u"] "D" (by decide)).2.2.2.1

/-- The avatar value computed by the fetch task (the `avatar` let of
the goroutine body): empty resolution stays empty, an unreachable
resolved URL becomes BROKEN, a reachable one is kept. -/
def taskAvatar (env : TaskEnv) (feed : GoFeed) : String :=
  let avatarURL := getFeedAvatarURL env.blogLogo feed
  if avatarURL = "" then ""
  else if env.checkURL avatarURL then avatarURL else "BROKEN"

/-- The published time computed by the fetch task (the `pubTime` block
of the goroutine body): the pre-parsed timestamp when the parser
supplied one, else the first accepted layout's parse, else the current
wall-clock time. -/
def taskPubTime (env : TaskEnv) (latest : GoFeedItem) : Int :=
  match latest.publishedParsed with
  | some t => t
  | none =>
    if latest.published ≠ "" then
      match parseTime env.timeParse latest.published with
      | .ok t => t
      | .error _ => env.now
    else env.now

theorem fetchTask_success_char (env : TaskEnv) (link : String)
    (feed : GoFeed) (latest : GoFeedItem) (rest : List GoFeedItem)
    (hfetch : env.fetchO link = .ok (some feed))
    (hitems : feed.items = latest :: rest) :
    fetchTask env link =
      { article := some
          { blogName := feed.title, title := latest.title,
            published := env.fmtDate (taskPubTime env latest),
            link := latest.link, avatar := taskAvatar env feed },
        feedLink := link, err := none,
        parsedTime := taskPubTime env latest } := by
  rw [fetchTask, hfetch]
  dsimp only
  rw [hitems]
  rw [if_neg (by simp)]
  rfl

theorem tryFormats_none (tp : String → String → Option Int) (s : String) :
    ∀ fmts : List String, (∀ f ∈ fmts, tp f s = none) →
      tryFormats tp s fmts = none := by
  intro fmts
  induction fmts with
  | nil =>
    intro _
    rfl
  | cons f rest ih =>
    intro h
    rw [tryFormats, h f (List.mem_cons_self f rest)]
    exact ih (fun g hg => h g (List.mem_cons_of_mem f hg))

theorem tryFormats_first_match (tp : String → String → Option Int)
    (s : String) (t : Int) : ∀ (pre suf : List String) (f : String),
      (∀ g ∈ pre, tp g s = none) → tp f s = some t →
      tryFormats tp s (pre ++ f :: suf) = some t := by
  intro pre
  induction pre with
  | nil =>
    intro suf f _ hf
    rw [List.nil_append, tryFormats, hf]
  | cons g rest ih =>
    intro suf f hpre hf
    rw [List.cons_append, tryFormats, hpre g (List.mem_cons_self g rest)]
    exact ih suf f (fun g2 hg2 => hpre g2 (List.mem_cons_of_mem g hg2)) hf

/-- C6: a fetch whose feed parses successfully with at least one entry
still succeeds when the newest entry has no pre-parsed timestamp and
its raw published string is accepted by none of the four named layouts
(RFC-1123 with numeric zone, RFC-1123, RFC-3339, RFC-3339 with
milliseconds); the published time then falls back to the current
wall-clock time.  The `hsub` hypothesis records the layout-subsumption
fact of Go's `time.Parse`: the redundant fifth layout, with a literal
+0000 zone, only accepts strings the first layout also accepts.  When
some layout matches, the first matching layout's parse result is
used. -/
theorem fetchTask_pubTime_fallback :
    (∀ (env : TaskEnv) (link : String) (feed : GoFeed)
        (latest : GoFeedItem) (rest : List GoFeedItem),
      env.fetchO link = .ok (some feed) →
      feed.items = latest :: rest →
      latest.publishedParsed = none →
      (∀ f ∈ [rfc1123z, rfc1123, rfc3339, rfc3339milli],
        env.timeParse f latest.published = none) →
      (env.timeParse plusZeroLayout latest.published ≠ none →
        env.timeParse rfc1123z latest.published ≠ none) →
      (fetchTask env link).err = none ∧
      (fetchTask env link).parsedTime = env.now) ∧
    (∀ (tp : String → String → Option Int) (s : String)
        (pre suf : List String) (f : String) (t : Int),
      goTimeFormats = pre ++ f :: suf →
      (∀ g ∈ pre, tp g s = none) →
      tp f s = some t →
      parseTime tp s = .ok t) := by
  constructor
  · intro env link feed latest rest hfetch hitems hpp h4 hsub
    have h5 : env.timeParse plusZeroLayout latest.published = none := by
      by_contra hne
      exact (hsub hne) (h4 rfc1123z (by simp))
    have hall : ∀ f ∈ goTimeFormats, env.timeParse f latest.published = none := by
      intro f hf
      rw [goTimeFormats] at hf
      rcases List.mem_cons.mp hf with rfl | hf
      · exact h4 rfc1123z (by simp)
      rcases List.mem_cons.mp hf with rfl | hf
      · exact h4 rfc1123 (by simp)
      rcases List.mem_cons.mp hf with rfl | hf
      · exact h4 rfc3339 (by simp)
      rcases List.mem_cons.mp hf with rfl | hf
      · exact h4 rfc3339milli (by simp)
      rcases List.mem_singleton.mp hf with rfl
      exact h5
    have htry : tryFormats env.timeParse latest.published goTimeFormats = none :=
      tryFormats_none _ _ _ hall
    rw [fetchTask_success_char env link feed latest rest hfetch hitems]
    refine ⟨rfl, ?_⟩
    show taskPubTime env latest = env.now
    rw [taskPubTime, hpp]
    dsimp only
    by_cases hpub : latest.published ≠ ""
    · rw [if_pos hpub, parseTime, htry]
    · rw [if_neg hpub]
  · intro tp s pre suf f t hfmt hpre hf
    rw [parseTime, hfmt, tryFormats_first_match tp s t pre suf f hpre hf]

/-- An oracle environment whose single feed parses with one entry
carrying an unrecognizable published string. -/
def envW2 : TaskEnv :=
  { fetchO := fun _ => .ok (some ⟨"T", "", none, [⟨"a", "l", "weird", none⟩]⟩),
    blogLogo := fun _ => "",
    checkURL := fun _ => false,
    timeParse := fun _ _ => none,
    fmtDate := fun _ => "",
    now := 42 }

/-- Concrete instantiation of `fetchTask_pubTime_fallback`: the
unparseable published string degrades to `now = 42` without failing
the fetch, and a parser accepting only RFC-3339 is selected as the
first match. -/
theorem fetchTask_pubTime_fallback_witness :
    ((fetchTask envW2 "u").err = none ∧
      (fetchTask envW2 "u").parsedTime = envW2.now) ∧
    parseTime (fun g _ => if g = rfc3339 then some 5 else none) "s" =
      .ok 5 := by
  constructor
  · exact fetchTask_pubTime_fallback.1 envW2 "u"
      ⟨"T", "", none, [⟨"a", "l", "weird", none⟩]⟩
      ⟨"a", "l", "weird", none⟩ [] rfl rfl rfl
      (fun f _ => rfl) (fun h => absurd rfl h)
  · refine fetchTask_pubTime_fallback.2
      (fun g _ => if g = rfc3339 then some 5 else none) "s"
      [rfc1123z, rfc1123] [rfc3339milli, plusZeroLayout] rfc3339 5 rfl ?_
      (by simp)
    intro g hg
    rcases List.mem_cons.mp hg with rfl | hg
    · decide
    rcases List.mem_singleton.mp hg with rfl
    decide

/-- C7: when the parsed feed's embedded image is present with a
non-empty URL, avatar resolution returns that URL and never consults
the homepage (the result does not depend on the homepage-logo
oracle); and when there is no embedded image and no homepage link, it
returns the empty string. -/
theorem getFeedAvatarURL_priority :
    (∀ (blogLogo1 blogLogo2 : String → String) (feed : GoFeed)
        (img : GoImage),
      feed.image = some img → img.url ≠ "" →
      getFeedAvatarURL blogLogo1 feed = img.url ∧
      getFeedAvatarURL blogLogo1 feed = getFeedAvatarURL blogLogo2 feed) ∧
    (∀ (blogLogo : String → String) (feed : GoFeed),
      feed.image = none → feed.link = "" →
      getFeedAvatarURL blogLogo feed = "") := by
  constructor
  · intro b1 b2 feed img himg hurl
    rw [getFeedAvatarURL, getFeedAvatarURL, himg]
    dsimp only
    rw [if_pos hurl, if_pos hurl]
    exact ⟨rfl, rfl⟩
  · intro b feed himg hlink
    rw [getFeedAvatarURL, himg]
    dsimp only
    rw [if_neg (fun hc => hc hlink)]

/-- Concrete instantiation of `getFeedAvatarURL_priority`: an embedded
image wins under two different homepage oracles, and a feed with
neither image nor link resolves to the empty string. -/
theorem getFeedAvatarURL_priority_witness :
    (getFeedAvatarURL (fun _ => "H1")
        ⟨"t", "http://home", some ⟨"http://img"⟩, []⟩ = "http://img" ∧
      getFeedAvatarURL (fun _ => "H1")
          ⟨"t", "http://home", some ⟨"http://img"⟩, []⟩ =
        getFeedAvatarURL (fun _ => "H2")
          ⟨"t", "http://home", some ⟨"http://img"⟩, []⟩) ∧
    getFeedAvatarURL (fun _ => "H1") ⟨"t", "", none, []⟩ = "" := by
  constructor
  · exact getFeedAvatarURL_priority.1 (fun _ => "H1") (fun _ => "H2")
      ⟨"t", "http://home", some ⟨"http://img"⟩, []⟩ ⟨"http://img"⟩ rfl
      (by decide)
  · exact getFeedAvatarURL_priority.2 (fun _ => "H1") ⟨"t", "", none, []⟩
      rfl rfl

/-- C10: `fallbackFavicon` returns the empty string whenever
`url.Parse` fails or the parsed URL has an empty scheme or empty host,
and for a parseable absolute URL it returns exactly
scheme://host/favicon.ico; consequently avatar resolution returns the
empty string for a feed with a non-empty homepage link whose homepage
fetch fails and whose link `url.Parse` cannot handle. -/
theorem fallbackFavicon_contract :
    (∀ (urlParse : String → Option GoURL) (blogURL : String),
      urlParse blogURL = none → fallbackFavicon urlParse blogURL = "") ∧
    (∀ (urlParse : String → Option GoURL) (blogURL : String) (u : GoURL),
      urlParse blogURL = some u → u.scheme = "" ∨ u.host = "" →
      fallbackFavicon urlParse blogURL = "") ∧
    (∀ (urlParse : String → Option GoURL) (blogURL : String) (u : GoURL),
      urlParse blogURL = some u → u.scheme ≠ "" → u.host ≠ "" →
      fallbackFavicon urlParse blogURL =
        u.scheme ++ "://" ++ u.host ++ "/favicon.ico") ∧
    (∀ (homepage : String → HomepageResult)
        (urlParse : String → Option GoURL)
        (resolveRef : String → String → String) (feed : GoFeed),
      feed.image = none → feed.link ≠ "" →
      homepage feed.link = .fetchFail → urlParse feed.link = none →
      getFeedAvatarURL (fetchBlogLogo homepage urlParse resolveRef) feed
        = "") := by
  refine ⟨?_, ?_, ?_, ?_⟩
  · intro up url h
    rw [fallbackFavicon, h]
  · intro up url u h hsh
    rw [fallbackFavicon, h]
    dsimp only
    rw [if_pos hsh]
  · intro up url u h hs hh
    rw [fallbackFavicon, h]
    dsimp only
    rw [if_neg (by tauto)]
  · intro hp up rr feed himg hlink hfail hparse
    rw [getFeedAvatarURL, himg]
    dsimp only
    rw [if_pos hlink, fetchBlogLogo, hfail]
    dsimp only
    rw [fallbackFavicon, hparse]

/-- Concrete instantiation of `fallbackFavicon_contract` at a parse
failure, a missing scheme, a well-formed absolute URL, and a full
resolution chain ending empty despite a non-empty homepage link. -/
theorem fallbackFavicon_contract_witness :
    fallbackFavicon (fun _ => none) "::bad" = "" ∧
    fallbackFavicon (fun _ => some ⟨"", "host"⟩) "u2" = "" ∧
    fallbackFavicon (fun _ => some ⟨"https", "example.com"⟩) "u3" =
      "https" ++ "://" ++ "example.com" ++ "/favicon.ico" ∧
    getFeedAvatarURL
      (fetchBlogLogo (fun _ => .fetchFail) (fun _ => none) (fun _ r => r))
      ⟨"t", "relative/home", none, []⟩ = "" := by
  refine ⟨?_, ?_, ?_, ?_⟩
  · exact fallbackFavicon_contract.1 (fun _ => none) "::bad" rfl
  · exact fallbackFavicon_contract.2.1 (fun _ => some ⟨"", "host"⟩) "u2"
      ⟨"", "host"⟩ rfl (Or.inl rfl)
  · exact fallbackFavicon_contract.2.2.1
      (fun _ => some ⟨"https", "example.com"⟩) "u3"
      ⟨"https", "example.com"⟩ rfl (by decide) (by decide)
  · exact fallbackFavicon_contract.2.2.2 (fun _ => .fetchFail)
      (fun _ => none) (fun _ r => r) ⟨"t", "relative/home", none, []⟩
      rfl (by decide) rfl rfl

/-! ## Worker pool semaphore (feed_fetcher.go: fetchAllFeeds dispatch) -/

/-- The semaphore capacity of fetchAllFeeds: `maxGoroutines := 10`. -/
def maxGoroutines : Nat := 10

/-- State of the dispatch loop and its worker tasks: the non-blank
links not yet launched, the number of tasks currently holding a
semaphore slot, and the counts of launched tasks and published
results. -/
structure PoolState where
  pending : List String
  active : Nat
  launched : Nat
  published : Nat
deriving DecidableEq, Repr

/-- Interleaving semantics of the dispatch loop and its workers:
`launch` is one iteration of the main loop (`sem <- struct{}{}` then
`go func`), enabled only while a semaphore slot is free — the channel
send blocks otherwise; `finish` is a task sending its result and
releasing its slot (`resultChan <- fr` then the deferred `<-sem`),
enabled while a task is active. -/
inductive PoolStep (cap : Nat) : PoolState → PoolState → Prop
  | launch (l : String) (rest : List String) (a ld p : Nat) :
      a < cap →
      PoolStep cap ⟨l :: rest, a, ld, p⟩ ⟨rest, a + 1, ld + 1, p⟩
  | finish (pend : List String) (a ld p : Nat) :
      0 < a →
      PoolStep cap ⟨pend, a, ld, p⟩ ⟨pend, a - 1, ld, p + 1⟩

/-- Reachability in the pool semantics. -/
def PoolReach (cap : Nat) : PoolState → PoolState → Prop :=
  Relation.ReflTransGen (PoolStep cap)

/-- The initial state of a run over the given raw link list: all
non-blank trimmed links pending, nothing active. -/
def poolInit (rssLinks : List String) : PoolState :=
  ⟨launchedLinks rssLinks, 0, 0, 0⟩

/-- A quiescent state: no transition is enabled. -/
def PoolTerminal (cap : Nat) (s : PoolState) : Prop :=
  ∀ s2, ¬ PoolStep cap s s2

/-- A measure that strictly decreases at every pool transition. -/
def poolMeasure (s : PoolState) : Nat :=
  2 * s.pending.length + s.active

theorem poolReach_invariant (cap : Nat) (links : List String)
    (s : PoolState) (h : PoolReach cap (poolInit links) s) :
    s.active ≤ cap ∧
    s.launched = s.published + s.active ∧
    s.launched + s.pending.length = (launchedLinks links).length := by
  induction h with
  | refl => simp [poolInit]
  | tail hreach hstep ih =>
    obtain ⟨ih1, ih2, ih3⟩ := ih
    cases hstep with
    | launch l rest a ld p hlt =>
      dsimp only at ih1 ih2 ih3 ⊢
      simp only [List.length_cons] at ih3
      exact ⟨by omega, by omega, by omega⟩
    | finish pend a ld p hpos =>
      dsimp only at ih1 ih2 ih3 ⊢
      exact ⟨by omega, by omega, by omega⟩

theorem poolTerminal_char (cap : Nat) (hcap : 0 < cap) (s : PoolState) :
    PoolTerminal cap s ↔ s.pending = [] ∧ s.active = 0 := by
  obtain ⟨pend, a, ld, p⟩ := s
  constructor
  · intro h
    have ha : a = 0 := by
      by_contra hne
      exact h ⟨pend, a - 1, ld, p + 1⟩
        (PoolStep.finish pend a ld p (by omega))
    subst ha
    refine ⟨?_, rfl⟩
    cases hp : pend with
    | nil => rfl
    | cons l rest =>
      exfalso
      exact h ⟨rest, 1, ld + 1, p⟩
        (hp ▸ PoolStep.launch l rest 0 ld p hcap)
  · rintro ⟨hpend, ha⟩ s2 hstep
    subst hpend
    subst ha
    cases hstep with
    | finish pend2 a2 ld2 p2 hpos => omega

theorem poolStep_measure (cap : Nat) (s1 s2 : PoolState)
    (h : PoolStep cap s1 s2) : poolMeasure s2 < poolMeasure s1 := by
  cases h with
  | launch l rest a ld p hlt =>
    simp only [poolMeasure, List.length_cons]
    omega
  | finish pend a ld p hpos =>
    simp only [poolMeasure]
    omega

/-- C9: in the interleaving semantics of the semaphore-guarded
dispatch loop, every reachable state of a run has at most
maxGoroutines = 10 active fetch tasks — the bound holds in every
intermediate state, not only at quiescence; one task is launched per
non-blank source: launched tasks plus still-pending links always equal
the non-blank link count, and in every terminal state both the
launched and the published counts equal it; and every admitted task
eventually publishes: a non-terminal state always has an enabled step
and every step strictly decreases the `poolMeasure`, so a run cannot
stall or continue forever before full publication. -/
theorem fetchAllFeeds_semaphore_bound (links : List String) (s : PoolState)
    (h : PoolReach maxGoroutines (poolInit links) s) :
    s.active ≤ maxGoroutines ∧
    s.launched = s.published + s.active ∧
    s.launched + s.pending.length = (launchedLinks links).length ∧
    (PoolTerminal maxGoroutines s →
      s.published = (launchedLinks links).length ∧
      s.launched = (launchedLinks links).length) ∧
    (¬ PoolTerminal maxGoroutines s → ∃ s2, PoolStep maxGoroutines s s2) ∧
    (∀ s1 s2 : PoolState, PoolStep maxGoroutines s1 s2 →
      poolMeasure s2 < poolMeasure s1) := by
  obtain ⟨h1, h2, h3⟩ := poolReach_invariant maxGoroutines links s h
  refine ⟨h1, h2, h3, ?_, ?_, ?_⟩
  · intro hterm
    obtain ⟨hpend, ha⟩ :=
      (poolTerminal_char maxGoroutines (by decide) s).mp hterm
    rw [hpend] at h3
    rw [ha] at h2
    simp only [List.length_nil, Nat.add_zero] at h2 h3
    omega
  · intro hnterm
    rw [PoolTerminal] at hnterm
    push_neg at hnterm
    obtain ⟨s2, hs2⟩ := hnterm
    exact ⟨s2, hs2⟩
  · intro s1 s2 hstep
    exact poolStep_measure maxGoroutines s1 s2 hstep

/-- Concrete instantiation of `fetchAllFeeds_semaphore_bound` at the
initial state of a one-link run, reached by the empty transition
sequence. -/
theorem fetchAllFeeds_semaphore_bound_witness :
    (poolInit ["u"]).active ≤ maxGoroutines ∧
    (poolInit ["u"]).launched =
      (poolInit ["u"]).published + (poolInit ["u"]).active := by
  have h := fetchAllFeeds_semaphore_bound ["u"] (poolInit ["u"])
    Relation.ReflTransGen.refl
  exact ⟨h.1, h.2.1⟩

end LhasaRSS
